import Mathlib

/-!
Verification development for the GolfGulf repository.

This file gives a shallow embedding of the golf-exposure feature
computation and the spatial-lag fitting pipeline of
`spatial_lag_assets.py` (plus the cluster labelling of
`vancouver_moran_map.py` and the per-tract count of
`vancouver_spatial_lag.py`), and settles the frozen claims about them.

Modelling conventions:
- Python floats are modelled by `PyFloat` (a rational payload plus the
  special values nan, inf, -inf) where NaN and infinity behaviour
  matters, and by `Rat` where the pipeline only deals with ordinary
  numbers.  A NaN-able distance column is modelled by `Option Rat`
  (`none` = NaN).
- Geometry is abstract: the exposure computation is parameterised over
  the geometry type, the shapely distance function, the
  representative-point function and the intersection predicate, since
  the geometry backend is an external library the code calls into.
  `distance to unary_union` is modelled as the minimum of the
  distances to the members of the union, which is the documented
  shapely semantics for a collection of geometries.
- The geopandas `sjoin(..., how=ew, predicate=..)` with how = left
  keeps every left row; a left row matching no right row is retained
  once with a NaN right index.  `groupby(CTUID).size()` counts all
  rows of each group, including such NaN rows.  This is the documented
  pandas semantics and is modelled faithfully below.
- `numpy.linalg.lstsq` is modelled by its documented contract: it
  returns a coefficient vector minimising the Euclidean norm of the
  residual.  `numpy.std` is modelled by a nonnegative number whose
  square is the population variance.
- External solver availability (`spreg.ML_Lag` importable or not) is a
  parameter of the fit pipeline: `some f` means the maximum-likelihood
  solver is present and returns fitted values `f y X`; `none` means
  that importing it failed and the code takes the OLS fallback branch.
-/

namespace GolfGulf

/-- Model of a Python float: a rational payload or one of the special
values NaN, +inf, -inf. -/
inductive PyFloat where
  | nan : PyFloat
  | pinf : PyFloat
  | ninf : PyFloat
  | fin : Rat → PyFloat
deriving DecidableEq, Repr

/-- `numpy.isfinite`: true only on ordinary numbers. -/
def PyFloat.isfinite : PyFloat → Bool
  | .fin _ => true
  | _ => false

/-- `pandas.notna`: false only on NaN (infinities are not NA). -/
def PyFloat.notna : PyFloat → Bool
  | .nan => false
  | _ => true

/-! ## CTUID normalisation (`spatial_lag_assets.py` lines 18-24,
duplicated in `interactive_map_builder.py` lines 101-107). -/

/-- Python `right.rstrip(zeroChar)`: drop trailing zero characters. -/
def rstrip0 (l : List Char) : List Char :=
  (l.reverse.dropWhile (fun c => c == '0')).reverse

/-- Python `s.split(dotChar, 1)`: split at the first dot, if any. -/
def splitFirstDot : List Char → Option (List Char × List Char)
  | [] => none
  | c :: cs =>
      if c = '.' then some ([], cs)
      else (splitFirstDot cs).map (fun p => (c :: p.1, p.2))

/-- Body of `_normalize_ctuid` on the character list of the input. -/
def normalizeCtuidAux (s : List Char) : List Char :=
  match splitFirstDot s with
  | none => s
  | some (l, r) =>
      let r2 := rstrip0 r
      let rf := if r2 = [] then ['0'] else r2
      l ++ '.' :: rf

/-- `_normalize_ctuid(ctuid)`: if the id contains a dot, strip the
trailing zeros of the fractional part, writing a bare `0` when the
fractional part was all zeros; otherwise return the id unchanged. -/
def normalize_ctuid (s : String) : String :=
  ⟨normalizeCtuidAux s.data⟩

/-! ## Exposure feature computation
(`compute_exposure_features`, `spatial_lag_assets.py` lines 57-90). -/

/-- One spatial unit handed to the exposure computation: a census
tract id plus its (abstract) geometry. -/
structure Tract (α : Type) where
  ctuid : String
  geom : α

/-- One output row of `compute_exposure_features`: `none` in
`dist_to_gc_km` models NaN. -/
structure ExposureRow where
  ctuid : String
  dist_to_gc_km : Option Rat
  golf_count : Nat
deriving DecidableEq, Repr

/-- Distance from a point to the unary union of a nonempty list of
reference geometries: the minimum of the member distances (shapely
semantics of distance to a collection). -/
def minDistTo {α : Type} (dist : α → α → Rat) (p : α) (g : α) (gs : List α) : Rat :=
  gs.foldl (fun m h => min m (dist p h)) (dist p g)

/-- The CTUID column of
`gpd.sjoin(tracts, golf, how=left, predicate=intersects)`:
every (tract, intersecting reference) pair contributes one row, and a
tract with no intersecting reference is still retained once (with a
NaN right index).  Modelled as the multiset of CTUID values. -/
def sjoinLeftCtuids {α : Type} (intersects : α → α → Bool)
    (tracts : List (Tract α)) (golf : List α) : List String :=
  tracts.flatMap (fun t =>
    List.replicate (max (golf.countP (fun g => intersects t.geom g)) 1) t.ctuid)

/-- `joined.groupby(CTUID).size()` looked up at one CTUID: the number
of joined rows carrying that id. -/
def groupSizeAt (joined : List String) (c : String) : Nat :=
  joined.countP (fun s => s == c)

/-- `compute_exposure_features(tracts, golf, cfg, max_distance_km)`.
The input `golf?` is `none` when the golf GeoDataFrame is None, and
`some l` with the list of reference geometries otherwise (the code
treats None and an empty frame alike).  `distance_unit_m` is
`cfg.distance_unit_m` (source default 1000) and `max_distance_km` the
cap (source default 1000).  Distances are computed from the
representative point of each tract to the union of the references,
divided by the unit, then clipped from above at the cap
(`Series.clip(upper=cap)` is a pointwise minimum); counts come from
the left spatial join grouped by CTUID and reindexed over the tract
ids with fill value 0. -/
def compute_exposure_features {α : Type} (dist : α → α → Rat) (repPoint : α → α)
    (intersects : α → α → Bool) (tracts : List (Tract α)) (golf? : Option (List α))
    (distance_unit_m max_distance_km : Rat) : List ExposureRow :=
  match golf? with
  | none => tracts.map (fun t => ⟨t.ctuid, none, 0⟩)
  | some [] => tracts.map (fun t => ⟨t.ctuid, none, 0⟩)
  | some (g :: gs) =>
      let joined := sjoinLeftCtuids intersects tracts (g :: gs)
      tracts.map (fun t =>
        ⟨t.ctuid,
         some (min (minDistTo dist (repPoint t.geom) g gs / distance_unit_m) max_distance_km),
         groupSizeAt joined t.ctuid⟩)

/-- `count_golf_in_ct(geom, golf_geoms)` from
`vancouver_spatial_lag.py` lines 173-174: the number of reference
geometries intersecting the tract geometry. -/
def count_golf_in_ct {α : Type} (intersects : α → α → Bool) (geom : α)
    (golf_geoms : List α) : Nat :=
  golf_geoms.countP (fun g => intersects g geom)

/-- Concrete one-dimensional geometry instance used to evaluate the
pipeline on explicit inputs: points are rationals. -/
def qdist (a b : Rat) : Rat := if a ≤ b then b - a else a - b

/-- Intersection test for the concrete instance: two points intersect
iff they coincide. -/
def qintersects (a b : Rat) : Bool := a == b

/-! ## Data preparation inside `fit_metric_spatial_lag_values`
(`spatial_lag_assets.py` lines 149-201). -/

/-- One row of the exposure DataFrame as consumed by the fit: id plus
the two feature columns (both nullable floats). -/
structure ExpRow where
  ctuid : String
  dist : PyFloat
  count : PyFloat
deriving DecidableEq, Repr

/-- One row of the merged frame after the metric column is attached. -/
structure PrepRow where
  ctuid : String
  y : PyFloat
  dist : PyFloat
  count : PyFloat
deriving DecidableEq, Repr

/-- `Series.map(values_by_ctuid)` at one id: dictionary lookup, NaN
when the key is missing. -/
def lookupValue (values : List (String × PyFloat)) (c : String) : PyFloat :=
  ((values.find? (fun p => p.1 == c)).map Prod.snd).getD PyFloat.nan

/-- `df.merge(exp_norm, on=CTUID, how=left)`: every left id is kept;
each matching exposure row yields one merged row, and an id with no
match yields a single row with NaN feature columns. -/
def merge_left (ctuids : List String) (exp : List ExpRow) :
    List (String × PyFloat × PyFloat) :=
  ctuids.flatMap (fun c =>
    match exp.filter (fun e => e.ctuid == c) with
    | [] => [(c, PyFloat.nan, PyFloat.nan)]
    | ms => ms.map (fun e => (c, e.dist, e.count)))

/-- Lines 150-156: normalise the tract ids and the exposure ids, left
merge, and attach the metric value column. -/
def fit_metric_rows (tract_ctuids : List String) (exposure : List ExpRow)
    (values : List (String × PyFloat)) : List PrepRow :=
  let dfC := tract_ctuids.map normalize_ctuid
  let expN := exposure.map (fun e => { e with ctuid := normalize_ctuid e.ctuid })
  (merge_left dfC expN).map (fun r => ⟨r.1, lookupValue values r.1, r.2.1, r.2.2⟩)

/-- Lines 193-194: the rows actually passed on to the fitter.  The
metric filter is `pd.to_numeric(y).notna()` (which keeps infinities),
the exposure filter is `np.isfinite(dist_to_gc_km)`. -/
def fit_metric_prepare (tract_ctuids : List String) (exposure : List ExpRow)
    (values : List (String × PyFloat)) : List PrepRow :=
  ((fit_metric_rows tract_ctuids exposure values).filter
      (fun r => r.y.notna)).filter (fun r => r.dist.isfinite)

/-- Dictionary write `skip_reasons[ctuid] = reason` (later writes to
the same key overwrite). -/
def upsertReason (m : List (String × String)) (k v : String) :
    List (String × String) :=
  if m.any (fun p => p.1 == k) then
    m.map (fun p => if p.1 == k then (k, v) else p)
  else m ++ [(k, v)]

/-- Lines 159-190: the skip-reason bookkeeping loop run over the
merged rows before filtering.  A row whose metric value is not a
finite number is recorded as missing/invalid; otherwise a row whose
distance is not a finite number is recorded as missing exposure. -/
def fit_metric_skip_reasons (tract_ctuids : List String) (exposure : List ExpRow)
    (values : List (String × PyFloat)) : List (String × String) :=
  (fit_metric_rows tract_ctuids exposure values).foldl
    (fun m r =>
      if !r.y.isfinite then
        upsertReason m r.ctuid "Missing or invalid metric value"
      else if !r.dist.isfinite then
        upsertReason m r.ctuid "Missing golf exposure (no courses in range)"
      else m) []

/-! ## Fit, OLS fallback and z-score normalisation
(`spatial_lag_assets.py` lines 228-246). -/

/-- `np.mean` of a list of rationals. -/
def meanQ (xs : List Rat) : Rat := xs.sum / xs.length

/-- Population variance (`np.std` squared, ddof = 0). -/
def varianceQ (xs : List Rat) : Rat :=
  (xs.map (fun x => (x - meanQ xs) ^ 2)).sum / xs.length

/-- Characterisation of `np.std(xs)`: a nonnegative number whose
square is the population variance. -/
def IsStd (xs : List Rat) (s : Rat) : Prop := 0 ≤ s ∧ s ^ 2 = varianceQ xs

/-- Lines 239-243: `sd = np.std(y_hat) or 1.0; z = (y_hat - mu) / sd`,
with `s` the value of `np.std(y_hat)`.  A zero standard deviation is
replaced by 1 (Python `or`), so the division is never by zero. -/
def zscoreWith (s : Rat) (xs : List Rat) : List Rat :=
  xs.map (fun x => (x - meanQ xs) / (if s = 0 then 1 else s))

/-- Row `i` of `X_ @ coef` where `X_ = np.column_stack([ones, X])` and
`coef = (c 0, c 1, c 2)`: the OLS-fallback fitted values (lines
233-235). -/
def designMulVec (X : List (Rat × Rat)) (c : Fin 3 → Rat) : List Rat :=
  X.map (fun p => c 0 + c 1 * p.1 + c 2 * p.2)

/-- Lines 228-246 after the data preparation: run the
maximum-likelihood solver when it is available (`ml = some f` models
`spreg.ML_Lag` importable, with `f y X` its fitted values `predy`);
otherwise fall back to `X_ @ lstsq(X_, y)` (`lstsq y X = none` models
the numpy call raising, in which case the function returns None);
finally z-score the fitted values using `stdFn` for `np.std`.  The
returned series is the z-scored values; no component of the result
records which branch produced them. -/
def fit_and_normalize (ml : Option (List Rat → List (Rat × Rat) → List Rat))
    (lstsq : List Rat → List (Rat × Rat) → Option (Fin 3 → Rat))
    (stdFn : List Rat → Rat) (y : List Rat) (X : List (Rat × Rat)) :
    Option (List Rat) :=
  let y_hat? : Option (List Rat) :=
    match ml with
    | some f => some (f y X)
    | none => (lstsq y X).map (designMulVec X)
  y_hat?.map (fun yh => zscoreWith (stdFn yh) yh)

/-! ## Weights cache key (`spatial_lag_assets.py` lines 210-212). -/

/-- Insertion step of an ascending insertion sort on strings. -/
def insertSorted (s : String) : List String → List String
  | [] => [s]
  | t :: ts => if t < s then t :: insertSorted s ts else s :: t :: ts

/-- Python `sorted` on a list of strings (ascending lexicographic). -/
def sortStrings (l : List String) : List String := l.foldr insertSorted []

/-- Line 212: the weights cache key, the row count concatenated with
the comma-joined sorted first five CTUIDs. -/
def cache_key (ctuids : List String) : String :=
  toString ctuids.length ++ "_" ++ String.intercalate "," (sortStrings (ctuids.take 5))

/-! ## Cluster labelling (`vancouver_moran_map.py` lines 82-93). -/

/-- `cluster_label(p, q, alpha)`: NotSig whenever the p-value reaches
the threshold, otherwise decode the quadrant number (source default
alpha = 0.05). -/
def cluster_label (p : Rat) (q : Nat) (alpha : Rat) : String :=
  if alpha ≤ p then "NotSig"
  else if q = 1 then "HH"
  else if q = 2 then "LH"
  else if q = 3 then "LL"
  else if q = 4 then "HL"
  else "NotSig"

/-- The quadrant code `Moran_Local.q` consumed at line 96, modelled
from the esda convention: 1 for (+,+), 2 for (-,+), 3 for (-,-),
4 for (+,-), where the first sign is the own z-value and the second
the neighbour-average (spatially lagged) z-value, and non-positive
counts as the negative side. -/
def moran_quadrant (z lag : Rat) : Nat :=
  if 0 < z then (if 0 < lag then 1 else 4)
  else (if 0 < lag then 2 else 3)

/-! ## Least squares over rational vectors, for the OLS fallback. -/

/-- Euclidean inner product on rational vectors. -/
def dotQ {n : Nat} (u v : Fin n → Rat) : Rat := ∑ i, u i * v i

/-- Matrix-vector product. -/
def mulVecQ {n k : Nat} (A : Fin n → Fin k → Rat) (c : Fin k → Rat) :
    Fin n → Rat :=
  fun i => ∑ j, A i j * c j

/-- Column `j` of the matrix `A`. -/
def colQ {n k : Nat} (A : Fin n → Fin k → Rat) (j : Fin k) : Fin n → Rat :=
  fun i => A i j

/-- Documented contract of `np.linalg.lstsq(A, y)`: the returned
coefficients minimise the squared Euclidean norm of the residual. -/
def IsLstsqSol {n k : Nat} (A : Fin n → Fin k → Rat) (y : Fin n → Rat)
    (c : Fin k → Rat) : Prop :=
  ∀ c', dotQ (y - mulVecQ A c) (y - mulVecQ A c) ≤
    dotQ (y - mulVecQ A c') (y - mulVecQ A c')

/-- `p` is the orthogonal (OLS) projection of `y` onto the column
space of `A`: it lies in the column space and the residual is
orthogonal to every column. -/
def IsOLSProj {n k : Nat} (A : Fin n → Fin k → Rat) (y p : Fin n → Rat) : Prop :=
  (∃ b, p = mulVecQ A b) ∧ ∀ j, dotQ (colQ A j) (y - p) = 0

/-- The design matrix `np.column_stack([ones, X])` of the fallback:
column 0 is the intercept column of ones, column 1 the distance
feature, column 2 the count feature. -/
def designQ (X : List (Rat × Rat)) : Fin X.length → Fin 3 → Rat :=
  fun i j =>
    if j.val = 0 then 1 else if j.val = 1 then (X.get i).1 else (X.get i).2

/-! ## Claim C1 -/

/-- C1: refuted on the code.  For a single tract intersected by no
reference geometry, `compute_exposure_features` reports a golf count
of 1, not 0: the left spatial join keeps the unmatched tract as one
row and `groupby(CTUID).size()` counts that row.  The per-tract
counter `count_golf_in_ct` of `vancouver_spatial_lag.py` returns 0 on
the same configuration, as the claim demands. -/
theorem claim_C1_zero_intersection_count :
    (compute_exposure_features qdist id qintersects [⟨"1", 0⟩] (some [5]) 1000 1000).map
        (fun r => r.golf_count) = [1]
    ∧ count_golf_in_ct qintersects 0 [5] = 0 := by
  constructor
  · rfl
  · rfl

/-! ## Claim C2 -/

/-- Shared helper: with an empty or missing reference set, every
output row of `compute_exposure_features` is (id, NaN, 0). -/
theorem compute_exposure_features_empty {α : Type} (dist : α → α → Rat)
    (repPoint : α → α) (intersects : α → α → Bool) (tracts : List (Tract α))
    (golf? : Option (List α)) (unit cap : Rat)
    (h : golf? = none ∨ golf? = some []) :
    compute_exposure_features dist repPoint intersects tracts golf? unit cap
      = tracts.map (fun t => ⟨t.ctuid, none, 0⟩) := by
  rcases h with rfl | rfl <;> rfl

/-- C2, counterexample: a tract whose representative point is
2,000,000 m (2000 km) from the only reference geometry, with the
default 1000 km cap, gets a recorded distance of 1000 km (a finite
value, the cap), not NaN as the claim states. -/
theorem claim_C2_counterexample :
    compute_exposure_features qdist id qintersects [⟨"1", 0⟩] (some [2000000]) 1000 1000
        = [⟨"1", some 1000, 1⟩]
    ∧ (some (1000 : Rat) : Option Rat) ≠ none := by
  constructor
  · simp [compute_exposure_features, minDistTo, qdist, sjoinLeftCtuids, groupSizeAt,
      qintersects]
    norm_num
  · simp

/-- C2, amended: the recorded distance is NaN exactly when the
reference set is empty or missing; with a nonempty reference set every
row carries a finite distance that is clipped at the cap (distances
beyond the cap are recorded as the cap value, never as NaN and never
as a finite value beyond the cap). -/
theorem claim_C2_distance_cap {α : Type} (dist : α → α → Rat) (repPoint : α → α)
    (intersects : α → α → Bool) (tracts : List (Tract α)) (golf : List α)
    (unit cap : Rat) (hg : golf ≠ []) :
    (∀ r ∈ compute_exposure_features dist repPoint intersects tracts (some golf) unit cap,
        r.dist_to_gc_km.isSome = true ∧ r.dist_to_gc_km.getD 0 ≤ cap)
    ∧ (∀ r ∈ compute_exposure_features dist repPoint intersects tracts none unit cap,
        r.dist_to_gc_km = none) := by
  constructor
  · cases golf with
    | nil => exact absurd rfl hg
    | cons g gs =>
        intro r hr
        rw [compute_exposure_features, List.mem_map] at hr
        obtain ⟨t, _, rfl⟩ := hr
        exact ⟨rfl, min_le_right _ _⟩
  · intro r hr
    rw [compute_exposure_features_empty dist repPoint intersects tracts none unit cap
      (Or.inl rfl), List.mem_map] at hr
    obtain ⟨t, _, rfl⟩ := hr
    rfl

/-- Witness for C2 at a concrete input: the capped row of the
counterexample configuration indeed carries a finite distance bounded
by the cap. -/
theorem claim_C2_distance_cap_witness :
    (ExposureRow.mk "1" (some 1000) 1).dist_to_gc_km.isSome = true
    ∧ (ExposureRow.mk "1" (some 1000) 1).dist_to_gc_km.getD 0 ≤ 1000 :=
  (claim_C2_distance_cap qdist id qintersects [⟨"1", 0⟩] [2000000] 1000 1000
      (by simp)).1 ⟨"1", some 1000, 1⟩ (by
        have h : compute_exposure_features qdist id qintersects [⟨"1", 0⟩]
            (some [2000000]) 1000 1000 = [⟨"1", some 1000, 1⟩] := by
          simp [compute_exposure_features, minDistTo, qdist, sjoinLeftCtuids,
            groupSizeAt, qintersects]
          norm_num
        rw [h]
        exact List.mem_singleton_self _)

/-! ## Claim C3 -/

/-- C3: confirmed.  With an empty (or missing) reference set the
exposure computation returns, for every target, a row with NaN
distance and count 0, and the distance is recorded as missing rather
than as a zero distance. -/
theorem claim_C3_empty_reference_set {α : Type} (dist : α → α → Rat)
    (repPoint : α → α) (intersects : α → α → Bool) (tracts : List (Tract α))
    (golf? : Option (List α)) (unit cap : Rat)
    (h : golf? = none ∨ golf? = some []) :
    compute_exposure_features dist repPoint intersects tracts golf? unit cap
        = tracts.map (fun t => ⟨t.ctuid, none, 0⟩)
    ∧ ∀ r ∈ compute_exposure_features dist repPoint intersects tracts golf? unit cap,
        r.dist_to_gc_km = none ∧ r.golf_count = 0 ∧ r.dist_to_gc_km ≠ some 0 := by
  refine ⟨compute_exposure_features_empty dist repPoint intersects tracts golf? unit cap h, ?_⟩
  intro r hr
  rw [compute_exposure_features_empty dist repPoint intersects tracts golf? unit cap h,
    List.mem_map] at hr
  obtain ⟨t, _, rfl⟩ := hr
  exact ⟨rfl, rfl, by simp⟩

/-- Witness for C3 at a concrete input: one tract, missing golf
frame. -/
theorem claim_C3_empty_reference_set_witness :
    compute_exposure_features qdist id qintersects [⟨"1", 0⟩] none 1000 1000
      = [⟨"1", none, 0⟩] :=
  (claim_C3_empty_reference_set qdist id qintersects [⟨"1", 0⟩] none 1000 1000
      (Or.inl rfl)).1

/-! ## Claim C7 -/

/-- C7, counterexample: two different unit sets (they even differ as
id sets) that agree on count and on the first five ids share the same
weights-cache key, so key equality does not imply id-set equality. -/
theorem claim_C7_counterexample :
    cache_key ["a", "b", "c", "d", "e", "f"] = cache_key ["a", "b", "c", "d", "e", "g"]
    ∧ ["a", "b", "c", "d", "e", "f"] ≠ ["a", "b", "c", "d", "e", "g"]
    ∧ "f" ∈ ["a", "b", "c", "d", "e", "f"]
    ∧ "f" ∉ ["a", "b", "c", "d", "e", "g"] := by
  refine ⟨rfl, by decide, by decide, by decide⟩

/-- C7, amended: the cache key fingerprints only the unit count and
the sorted first five ids.  Any two unit lists agreeing on those
share a key (so a cached weights structure is reused across unit sets
that differ beyond the sampled ids; id-set equality is not
verified). -/
theorem claim_C7_cache_key (l1 l2 : List String) (hlen : l1.length = l2.length)
    (hhead : l1.take 5 = l2.take 5) : cache_key l1 = cache_key l2 := by
  unfold cache_key
  rw [hlen, hhead]

/-- Witness for C7 at the concrete pair of unit lists of the
counterexample. -/
theorem claim_C7_cache_key_witness :
    cache_key ["a", "b", "c", "d", "e", "f"] = cache_key ["a", "b", "c", "d", "e", "g"] :=
  claim_C7_cache_key _ _ (by decide) (by decide)

/-! ## Claim C4 -/

/-- C4: refuted on the code.  A row whose metric value is +infinity
passes the pre-fit filter (`pd.to_numeric(y).notna()` keeps
infinities) and reaches the y vector handed to the fitter, even
though the skip-reason loop of the very same function records that
row as skipped for an invalid metric value.  So the y vector passed
to the fitter is not all-finite. -/
theorem claim_C4_infinite_y_not_filtered :
    fit_metric_prepare ["1"] [⟨"1", PyFloat.fin 5, PyFloat.fin 0⟩] [("1", PyFloat.pinf)]
        = [⟨"1", PyFloat.pinf, PyFloat.fin 5, PyFloat.fin 0⟩]
    ∧ fit_metric_skip_reasons ["1"] [⟨"1", PyFloat.fin 5, PyFloat.fin 0⟩]
        [("1", PyFloat.pinf)] = [("1", "Missing or invalid metric value")]
    ∧ PyFloat.isfinite PyFloat.pinf = false := by
  refine ⟨by decide, by decide, rfl⟩

/-! ## Claim C5 -/

/-- C5, counterexample: the result of the fit carries no fallback
flag.  On a concrete input, a run in which the spatial-lag solver is
available (and produces fitted values [0, 0]) and a run in which the
solver is unavailable (so the code takes the OLS fallback branch,
whose lstsq coefficients are all zero and hence whose fitted values
are also [0, 0]) return exactly the same value, so a caller cannot
distinguish a fallback fit from a true spatial-lag fit. -/
theorem claim_C5_counterexample :
    fit_and_normalize (some (fun _ _ => [0, 0])) (fun _ _ => some (fun _ => 0))
        (fun _ => 0) [1, 2] [(0, 0), (1, 1)]
      = fit_and_normalize none (fun _ _ => some (fun _ => 0))
        (fun _ => 0) [1, 2] [(0, 0), (1, 1)] := by
  simp [fit_and_normalize, designMulVec, zscoreWith, meanQ]

/-- C5, amended: on fallback the engine still returns usable fitted
values (the z-scored OLS fit), but the result is not flagged: a
fallback run is indistinguishable from a successful spatial-lag run
producing the same fitted values, for every input and every lstsq
outcome. -/
theorem claim_C5_fallback_unflagged :
    ∀ (coefFn : List Rat → List (Rat × Rat) → Fin 3 → Rat)
      (stdFn : List Rat → Rat) (y : List Rat) (X : List (Rat × Rat)),
      fit_and_normalize (some (fun a b => designMulVec b (coefFn a b)))
          (fun a b => some (coefFn a b)) stdFn y X
        = fit_and_normalize none (fun a b => some (coefFn a b)) stdFn y X := by
  intro coefFn stdFn y X
  rfl

/-! ## Claim C8 -/

/-- C8: confirmed.  With the default threshold 0.05, a unit whose
permutation p-value reaches the threshold is labelled NotSig whatever
its quadrant code; otherwise the quadrant of (own z sign, neighbour
average z sign) maps (+,+) to HH, (-,+) to LH, (-,-) to LL and (+,-)
to HL. -/
theorem claim_C8_cluster_labels (p z lag : Rat) :
    ((1 / 20 : Rat) ≤ p → ∀ q : Nat, cluster_label p q (1 / 20) = "NotSig")
    ∧ (p < 1 / 20 →
        ((0 < z → 0 < lag → cluster_label p (moran_quadrant z lag) (1 / 20) = "HH")
        ∧ (z < 0 → 0 < lag → cluster_label p (moran_quadrant z lag) (1 / 20) = "LH")
        ∧ (z < 0 → lag < 0 → cluster_label p (moran_quadrant z lag) (1 / 20) = "LL")
        ∧ (0 < z → lag < 0 → cluster_label p (moran_quadrant z lag) (1 / 20) = "HL"))) := by
  constructor
  · intro hp q
    unfold cluster_label
    rw [if_pos hp]
  · intro hp
    have hnp : ¬(1 / 20 : Rat) ≤ p := not_le.mpr hp
    refine ⟨fun hz hl => ?_, fun hz hl => ?_, fun hz hl => ?_, fun hz hl => ?_⟩ <;>
      unfold cluster_label moran_quadrant
    · rw [if_pos hz, if_pos hl, if_neg hnp]
      decide
    · rw [if_neg (lt_asymm hz), if_pos hl, if_neg hnp]
      decide
    · rw [if_neg (lt_asymm hz), if_neg (lt_asymm hl), if_neg hnp]
      decide
    · rw [if_pos hz, if_neg (lt_asymm hl), if_neg hnp]
      decide

/-- Witness for C8: concrete labels through the theorem — an
insignificant unit in quadrant 1 is NotSig, a significant (+,+) unit
is HH, and a significant (-,-) unit is LL. -/
theorem claim_C8_cluster_labels_witness :
    cluster_label (1 / 10) 1 (1 / 20) = "NotSig"
    ∧ cluster_label (1 / 100) (moran_quadrant 1 1) (1 / 20) = "HH"
    ∧ cluster_label (1 / 100) (moran_quadrant (-1) (-1)) (1 / 20) = "LL" :=
  ⟨(claim_C8_cluster_labels (1 / 10) 0 0).1 (by norm_num) 1,
   ((claim_C8_cluster_labels (1 / 100) 1 1).2 (by norm_num)).1 (by norm_num) (by norm_num),
   (((claim_C8_cluster_labels (1 / 100) (-1) (-1)).2 (by norm_num)).2.2.1 (by norm_num)
     (by norm_num))⟩

/-! ## Claim C9 -/

/-- Dropping a prefix satisfying `p` twice is the same as dropping it
once. -/
theorem dropWhile_self_idem {α : Type} (p : α → Bool) (l : List α) :
    (l.dropWhile p).dropWhile p = l.dropWhile p := by
  induction l with
  | nil => rfl
  | cons a t ih =>
      by_cases h : p a
      · simp [List.dropWhile_cons, h, ih]
      · simp [List.dropWhile_cons, h]

/-- Stripping trailing zeros is idempotent. -/
theorem rstrip0_idem (l : List Char) : rstrip0 (rstrip0 l) = rstrip0 l := by
  unfold rstrip0
  rw [List.reverse_reverse, dropWhile_self_idem]

/-- The left part returned by `splitFirstDot` contains no dot. -/
theorem splitFirstDot_left_no_dot :
    ∀ {s l r : List Char}, splitFirstDot s = some (l, r) → '.' ∉ l := by
  intro s
  induction s with
  | nil => intro l r h; exact absurd h (by simp [splitFirstDot])
  | cons c cs ih =>
      intro l r h
      rw [splitFirstDot] at h
      by_cases hc : c = '.'
      · rw [if_pos hc] at h
        cases h
        exact List.not_mem_nil _
      · rw [if_neg hc] at h
        cases h2 : splitFirstDot cs with
        | none => rw [h2] at h; exact absurd h (by simp)
        | some p =>
            rw [h2] at h
            cases h
            intro hmem
            rcases List.mem_cons.mp hmem with h3 | h3
            · exact hc h3.symm
            · exact ih h2 h3

/-- `splitFirstDot` recovers a dot-free left part. -/
theorem splitFirstDot_append {l : List Char} (r : List Char) (hl : '.' ∉ l) :
    splitFirstDot (l ++ '.' :: r) = some (l, r) := by
  induction l with
  | nil => simp [splitFirstDot]
  | cons c cs ih =>
      have hc : c ≠ '.' := fun h => hl (h ▸ List.mem_cons_self c cs)
      have hcs : '.' ∉ cs := fun h => hl (List.mem_cons_of_mem c h)
      rw [List.cons_append, splitFirstDot, if_neg hc, ih hcs]
      rfl

/-- Idempotence of the normalisation body on character lists. -/
theorem normalizeCtuidAux_idem (d : List Char) :
    normalizeCtuidAux (normalizeCtuidAux d) = normalizeCtuidAux d := by
  cases h : splitFirstDot d with
  | none =>
      have e1 : normalizeCtuidAux d = d := by rw [normalizeCtuidAux, h]
      rw [e1]
      exact e1
  | some lr =>
      obtain ⟨l, r⟩ := lr
      have hl : '.' ∉ l := splitFirstDot_left_no_dot h
      have e1 : normalizeCtuidAux d
          = l ++ '.' :: (if rstrip0 r = [] then ['0'] else rstrip0 r) := by
        rw [normalizeCtuidAux, h]
      rw [e1, normalizeCtuidAux, splitFirstDot_append _ hl]
      have hs : (if rstrip0 (if rstrip0 r = [] then ['0'] else rstrip0 r) = []
            then ['0'] else rstrip0 (if rstrip0 r = [] then ['0'] else rstrip0 r))
          = (if rstrip0 r = [] then ['0'] else rstrip0 r) := by
        by_cases h0 : rstrip0 r = []
        · rw [if_pos h0, if_pos (by rfl : rstrip0 ['0'] = [])]
        · rw [if_neg h0, rstrip0_idem, if_neg h0]
      simpa using hs

/-- C9: confirmed.  The CTUID canonicalisation is idempotent:
normalising an already normalised id is a no-op. -/
theorem claim_C9_normalize_idempotent (s : String) :
    normalize_ctuid (normalize_ctuid s) = normalize_ctuid s := by
  unfold normalize_ctuid
  exact congrArg String.mk (normalizeCtuidAux_idem s.data)

/-! ## Claim C10 -/

/-- Sum of an affine image of a list. -/
theorem sum_map_affine (xs : List Rat) (a b : Rat) :
    (xs.map (fun x => a * x + b)).sum = a * xs.sum + xs.length * b := by
  induction xs with
  | nil => simp
  | cons x t ih =>
      simp only [List.map_cons, List.sum_cons, ih, List.length_cons]
      push_cast
      ring

/-- The z-score divisor used by the code is never zero. -/
theorem zscore_denom_ne_zero (s : Rat) : (if s = 0 then (1 : Rat) else s) ≠ 0 := by
  by_cases h : s = 0 <;> simp [h]

/-- The z-scored series always has mean zero (for a nonempty list). -/
theorem meanQ_zscoreWith (s : Rat) (xs : List Rat) (h : xs ≠ []) :
    meanQ (zscoreWith s xs) = 0 := by
  have hn : (xs.length : Rat) ≠ 0 := by
    have h2 : xs.length ≠ 0 := (List.length_pos.mpr h).ne'
    exact_mod_cast h2
  have hsum : (zscoreWith s xs).sum = 0 := by
    unfold zscoreWith
    set d : Rat := if s = 0 then 1 else s with hdd
    have hd : d ≠ 0 := by rw [hdd]; exact zscore_denom_ne_zero s
    have e : (fun x => (x - meanQ xs) / d)
        = fun x => (1 / d) * x + (-(meanQ xs / d)) := by
      funext x
      ring
    rw [e, sum_map_affine]
    unfold meanQ
    field_simp
    ring
  unfold meanQ
  rw [hsum, zero_div]

/-- Variance of the z-scored series in terms of the input variance. -/
theorem varianceQ_zscoreWith (s : Rat) (xs : List Rat) (h : xs ≠ []) :
    varianceQ (zscoreWith s xs)
      = varianceQ xs / (if s = 0 then (1 : Rat) else s) ^ 2 := by
  have hmz := meanQ_zscoreWith s xs h
  unfold varianceQ
  rw [hmz]
  simp only [sub_zero]
  unfold zscoreWith
  set d : Rat := if s = 0 then 1 else s with hdd
  rw [List.map_map, List.length_map]
  have e : ((fun x => x ^ 2) ∘ fun x => (x - meanQ xs) / d)
      = (fun t => (1 / d ^ 2) * t + 0) ∘ fun x => (x - meanQ xs) ^ 2 := by
    funext x
    simp only [Function.comp_apply]
    ring
  rw [e, ← List.map_map, sum_map_affine, List.length_map]
  ring

/-- A list of nonnegative rationals summing to zero is all zeros. -/
theorem all_zero_of_nonneg_sum_zero :
    ∀ (l : List Rat), (∀ x ∈ l, 0 ≤ x) → l.sum = 0 → ∀ x ∈ l, x = 0 := by
  intro l
  induction l with
  | nil => intro _ _ x hx; exact absurd hx (List.not_mem_nil x)
  | cons a t ih =>
      intro hpos hsum x hx
      have hts : 0 ≤ t.sum := List.sum_nonneg (fun y hy => hpos y (List.mem_cons_of_mem a hy))
      have ha : 0 ≤ a := hpos a (List.mem_cons_self a t)
      rw [List.sum_cons] at hsum
      have ha0 : a = 0 := le_antisymm (by linarith) ha
      have ht0 : t.sum = 0 := by linarith
      rcases List.mem_cons.mp hx with rfl | hx2
      · exact ha0
      · exact ih (fun y hy => hpos y (List.mem_cons_of_mem a hy)) ht0 x hx2

/-- Zero variance on a nonempty list forces every entry to equal the
mean. -/
theorem eq_mean_of_varianceQ_zero (xs : List Rat) (h : xs ≠ [])
    (hv : varianceQ xs = 0) : ∀ x ∈ xs, x = meanQ xs := by
  have hn : (xs.length : Rat) ≠ 0 := by
    have h2 : xs.length ≠ 0 := (List.length_pos.mpr h).ne'
    exact_mod_cast h2
  unfold varianceQ at hv
  rw [div_eq_zero_iff] at hv
  have hT : (xs.map (fun x => (x - meanQ xs) ^ 2)).sum = 0 := hv.resolve_right hn
  intro x hx
  have hx2 : (x - meanQ xs) ^ 2 = 0 :=
    all_zero_of_nonneg_sum_zero _ (by
        intro y hy
        obtain ⟨z, _, rfl⟩ := List.mem_map.mp hy
        exact sq_nonneg _) hT _ (List.mem_map.mpr ⟨x, hx, rfl⟩)
  have h3 : x - meanQ xs = 0 := by
    have h4 : (2 : Nat) ≠ 0 := by norm_num
    exact (pow_eq_zero_iff h4).mp hx2
  linarith [sub_eq_zero.mp h3]

/-- C10: confirmed.  The fit pipeline returns the z-scored fitted
values, not the raw ones; the z-score divisor (std, or 1 when the std
is 0) is never zero; and on a nonempty, non-constant series the
z-scored values have mean 0 and standard deviation 1. -/
theorem claim_C10_zscore_normalization
    (f : List Rat → List (Rat × Rat) → List Rat)
    (lsq : List Rat → List (Rat × Rat) → Option (Fin 3 → Rat))
    (stdFn : List Rat → Rat) (y : List Rat) (X : List (Rat × Rat))
    (xs : List Rat) (s : Rat) :
    fit_and_normalize (some f) lsq stdFn y X
        = some (zscoreWith (stdFn (f y X)) (f y X))
    ∧ (if s = 0 then (1 : Rat) else s) ≠ 0
    ∧ (xs ≠ [] → IsStd xs s → (∃ a ∈ xs, ∃ b ∈ xs, a ≠ b) →
        meanQ (zscoreWith s xs) = 0 ∧ IsStd (zscoreWith s xs) 1) := by
  refine ⟨rfl, zscore_denom_ne_zero s, ?_⟩
  intro hne hstd hnc
  have hs0 : s ≠ 0 := by
    intro h0
    have hv : varianceQ xs = 0 := by
      have := hstd.2
      rw [h0] at this
      simpa using this.symm
    obtain ⟨a, ha, b, hb, hab⟩ := hnc
    exact hab ((eq_mean_of_varianceQ_zero xs hne hv a ha).trans
      (eq_mean_of_varianceQ_zero xs hne hv b hb).symm)
  refine ⟨meanQ_zscoreWith s xs hne, by norm_num, ?_⟩
  rw [varianceQ_zscoreWith s xs hne, if_neg hs0, ← hstd.2]
  field_simp

/-- Witness for C10 on the concrete series [0, 2] with std 1: the
z-scored series has mean 0 and standard deviation 1. -/
theorem claim_C10_zscore_normalization_witness :
    meanQ (zscoreWith 1 [0, 2]) = 0 ∧ IsStd (zscoreWith 1 [0, 2]) 1 :=
  (claim_C10_zscore_normalization (fun _ _ => []) (fun _ _ => none) (fun _ => 0)
      [] [] [0, 2] 1).2.2 (by simp)
    ⟨by norm_num, by norm_num [varianceQ, meanQ]⟩
    ⟨0, by norm_num, 2, by norm_num, by norm_num⟩

/-! ## Claim C6 -/

/-- The inner product of a vector with itself is nonnegative. -/
theorem dotQ_nonneg {n : Nat} (v : Fin n → Rat) : 0 ≤ dotQ v v :=
  Finset.sum_nonneg fun _ _ => mul_self_nonneg _

/-- A vector with zero self inner product is the zero vector. -/
theorem dotQ_self_eq_zero {n : Nat} (v : Fin n → Rat) (h : dotQ v v = 0) : v = 0 := by
  funext i
  have h2 := (Finset.sum_eq_zero_iff_of_nonneg fun j _ => mul_self_nonneg (v j)).mp h
  exact mul_self_eq_zero.mp (h2 i (Finset.mem_univ i))

/-- Scalars pull out of the second argument of the inner product. -/
theorem dotQ_smul_right {n : Nat} (u v : Fin n → Rat) (t : Rat) :
    dotQ u (t • v) = t * dotQ u v := by
  unfold dotQ
  rw [Finset.mul_sum]
  apply Finset.sum_congr rfl
  intro i _
  simp only [Pi.smul_apply, smul_eq_mul]
  ring

/-- Scalars pull out of the first argument of the inner product. -/
theorem dotQ_smul_left {n : Nat} (u v : Fin n → Rat) (t : Rat) :
    dotQ (t • u) v = t * dotQ u v := by
  unfold dotQ
  rw [Finset.mul_sum]
  apply Finset.sum_congr rfl
  intro i _
  simp only [Pi.smul_apply, smul_eq_mul]
  ring

/-- The inner product is additive in its second argument (subtraction
form). -/
theorem dotQ_sub_right {n : Nat} (u v w : Fin n → Rat) :
    dotQ u (v - w) = dotQ u v - dotQ u w := by
  unfold dotQ
  rw [← Finset.sum_sub_distrib]
  apply Finset.sum_congr rfl
  intro i _
  simp only [Pi.sub_apply]
  ring

/-- Binomial expansion of the squared norm of a difference. -/
theorem dotQ_expand {n : Nat} (u w : Fin n → Rat) :
    dotQ (u - w) (u - w) = dotQ u u - 2 * dotQ u w + dotQ w w := by
  unfold dotQ
  have e : ∀ i ∈ Finset.univ (α := Fin n),
      (u - w) i * (u - w) i = u i * u i - 2 * (u i * w i) + w i * w i := by
    intro i _
    simp only [Pi.sub_apply]
    ring
  rw [Finset.sum_congr rfl e]
  rw [Finset.sum_add_distrib, Finset.sum_sub_distrib, ← Finset.mul_sum]

/-- Matrix-vector multiplication distributes over `c + t • d`. -/
theorem mulVecQ_add_smul {n k : Nat} (A : Fin n → Fin k → Rat)
    (c d : Fin k → Rat) (t : Rat) :
    mulVecQ A (c + t • d) = mulVecQ A c + t • mulVecQ A d := by
  funext i
  simp only [mulVecQ, Pi.add_apply, Pi.smul_apply, smul_eq_mul]
  rw [Finset.mul_sum, ← Finset.sum_add_distrib]
  apply Finset.sum_congr rfl
  intro j _
  ring

/-- Matrix-vector multiplication distributes over subtraction. -/
theorem mulVecQ_sub {n k : Nat} (A : Fin n → Fin k → Rat) (c d : Fin k → Rat) :
    mulVecQ A (c - d) = mulVecQ A c - mulVecQ A d := by
  funext i
  simp only [mulVecQ, Pi.sub_apply]
  rw [← Finset.sum_sub_distrib]
  apply Finset.sum_congr rfl
  intro j _
  ring

/-- The inner product against a matrix-vector product decomposes over
the matrix columns. -/
theorem dotQ_mulVecQ {n k : Nat} (r : Fin n → Rat) (A : Fin n → Fin k → Rat)
    (d : Fin k → Rat) :
    dotQ r (mulVecQ A d) = ∑ j, d j * dotQ (colQ A j) r := by
  unfold dotQ mulVecQ colQ
  calc ∑ i, r i * ∑ j, A i j * d j
      = ∑ i, ∑ j, r i * (A i j * d j) :=
        Finset.sum_congr rfl fun i _ => Finset.mul_sum _ _ _
    _ = ∑ j, ∑ i, r i * (A i j * d j) := Finset.sum_comm
    _ = ∑ j, d j * ∑ i, A i j * r i := by
        apply Finset.sum_congr rfl
        intro j _
        rw [Finset.mul_sum]
        apply Finset.sum_congr rfl
        intro i _
        ring

/-- A least-squares minimiser satisfies the normal equations: the
residual is orthogonal to every column of the design matrix. -/
theorem lstsq_normal_eq {n k : Nat} (A : Fin n → Fin k → Rat) (y : Fin n → Rat)
    (c : Fin k → Rat) (h : IsLstsqSol A y c) :
    ∀ j, dotQ (colQ A j) (y - mulVecQ A c) = 0 := by
  have main : dotQ (fun j => dotQ (colQ A j) (y - mulVecQ A c))
      (fun j => dotQ (colQ A j) (y - mulVecQ A c)) = 0 := by
    set r : Fin n → Rat := y - mulVecQ A c with hr
    set d : Fin k → Rat := fun j => dotQ (colQ A j) r with hd
    by_contra hne
    have hDpos : 0 < dotQ d d := lt_of_le_of_ne (dotQ_nonneg d) (Ne.symm hne)
    have hEnn : 0 ≤ dotQ (mulVecQ A d) (mulVecQ A d) := dotQ_nonneg _
    have hrAd : dotQ r (mulVecQ A d) = dotQ d d := by
      rw [dotQ_mulVecQ]
      apply Finset.sum_congr rfl
      intro j _
      simp only [hd]
    have key : ∀ t : Rat,
        0 ≤ -(2 * t * dotQ d d) + t ^ 2 * dotQ (mulVecQ A d) (mulVecQ A d) := by
      intro t
      have e2 : y - mulVecQ A (c + t • d) = r - t • mulVecQ A d := by
        rw [mulVecQ_add_smul]
        funext i
        simp only [hr, Pi.sub_apply, Pi.add_apply, Pi.smul_apply, smul_eq_mul]
        ring
      have h3 : dotQ r r ≤ dotQ (r - t • mulVecQ A d) (r - t • mulVecQ A d) := by
        have h2 := h (c + t • d)
        rw [e2] at h2
        exact h2
      have h4 : dotQ (r - t • mulVecQ A d) (r - t • mulVecQ A d)
          = dotQ r r - 2 * (t * dotQ d d)
            + t * (t * dotQ (mulVecQ A d) (mulVecQ A d)) := by
        rw [dotQ_expand, dotQ_smul_right, hrAd, dotQ_smul_left, dotQ_smul_right]
      nlinarith [h3, h4]
    rcases eq_or_lt_of_le hEnn with hE0 | hEpos
    · have h4 := key 1
      rw [← hE0] at h4
      nlinarith [hDpos, h4]
    · have h5 := key (dotQ d d / dotQ (mulVecQ A d) (mulVecQ A d))
      have hEne : dotQ (mulVecQ A d) (mulVecQ A d) ≠ 0 := ne_of_gt hEpos
      have h6 : -(2 * (dotQ d d / dotQ (mulVecQ A d) (mulVecQ A d)) * dotQ d d)
          + (dotQ d d / dotQ (mulVecQ A d) (mulVecQ A d)) ^ 2
            * dotQ (mulVecQ A d) (mulVecQ A d)
          = -(dotQ d d ^ 2 / dotQ (mulVecQ A d) (mulVecQ A d)) := by
        field_simp
        ring
      rw [h6] at h5
      have h7 : 0 < dotQ d d ^ 2 / dotQ (mulVecQ A d) (mulVecQ A d) :=
        div_pos (pow_pos hDpos 2) hEpos
      linarith
  intro j
  have h8 := congrFun (dotQ_self_eq_zero _ main) j
  simpa using h8

/-- The OLS projection is unique: any two vectors in the column space
with residuals orthogonal to all columns coincide. -/
theorem olsproj_unique {n k : Nat} (A : Fin n → Fin k → Rat) (y p1 p2 : Fin n → Rat)
    (h1 : IsOLSProj A y p1) (h2 : IsOLSProj A y p2) : p1 = p2 := by
  obtain ⟨⟨b1, rfl⟩, ho1⟩ := h1
  obtain ⟨⟨b2, rfl⟩, ho2⟩ := h2
  have hj : ∀ j, dotQ (colQ A j) (mulVecQ A (b2 - b1)) = 0 := by
    intro j
    have e : mulVecQ A (b2 - b1) = (y - mulVecQ A b1) - (y - mulVecQ A b2) := by
      rw [mulVecQ_sub]
      funext i
      simp only [Pi.sub_apply]
      ring
    rw [e, dotQ_sub_right, ho1 j, ho2 j, sub_zero]
  have hz : dotQ (mulVecQ A (b2 - b1)) (mulVecQ A (b2 - b1)) = 0 := by
    rw [dotQ_mulVecQ]
    apply Finset.sum_eq_zero
    intro j _
    rw [hj j, mul_zero]
  have h9 := dotQ_self_eq_zero _ hz
  rw [mulVecQ_sub] at h9
  exact (sub_eq_zero.mp h9).symm

/-- C6: confirmed.  Whenever the fallback branch runs, the fitted
values `X_ @ lstsq(X_, y)` computed by `designMulVec` coincide with
the orthogonal (OLS) projection of y onto the span of [1, X]: the
fallback vector lies in the column space of the design matrix, its
residual is orthogonal to every column, and it is the unique such
vector — and this holds for degenerate or collinear X as well, since
no rank condition is used. -/
theorem claim_C6_ols_fallback_projection (X : List (Rat × Rat))
    (y : Fin X.length → Rat) (c : Fin 3 → Rat)
    (h : IsLstsqSol (designQ X) y c) :
    designMulVec X c = List.ofFn (mulVecQ (designQ X) c)
    ∧ IsOLSProj (designQ X) y (mulVecQ (designQ X) c)
    ∧ ∀ p, IsOLSProj (designQ X) y p → p = mulVecQ (designQ X) c := by
  have hproj : IsOLSProj (designQ X) y (mulVecQ (designQ X) c) :=
    ⟨⟨c, rfl⟩, lstsq_normal_eq _ _ _ h⟩
  refine ⟨?_, hproj, fun p hp => olsproj_unique _ _ p _ hp hproj⟩
  apply List.ext_getElem
  · simp [designMulVec]
  · intro i h1 h2
    simp only [designMulVec, List.getElem_map, List.getElem_ofFn]
    simp only [mulVecQ, designQ, Fin.sum_univ_three]
    norm_num
    ring

/-- Witness for C6 at a fully collinear design (both feature columns
equal the intercept column): the coefficient vector (3, 0, 0) is a
least-squares solution for y = (2, 4), and the fallback fitted values
agree with the projection vector. -/
theorem claim_C6_ols_fallback_projection_witness :
    designMulVec [((1 : Rat), (1 : Rat)), (1, 1)] ![3, 0, 0]
      = List.ofFn (mulVecQ (designQ [((1 : Rat), (1 : Rat)), (1, 1)]) ![3, 0, 0]) :=
  (claim_C6_ols_fallback_projection [((1 : Rat), (1 : Rat)), (1, 1)] ![2, 4] ![3, 0, 0]
    (by
      intro c'
      show @dotQ 2 _ _ ≤ @dotQ 2 _ _
      simp only [dotQ, mulVecQ, designQ, Fin.sum_univ_two, Fin.sum_univ_three,
        Pi.sub_apply]
      norm_num
      nlinarith [sq_nonneg (c' 0 + c' 1 + c' 2 - 3)])).1

end GolfGulf
